import Mathlib

/-!
# Verification of `connectCurrentRefinedValues`

Shallow embedding of `src/connectors/current-refined-values/connectCurrentRefinedValues.js`
and proofs about its refinement extraction, ordering, filtering, clearing and
rendering logic.

Modelling conventions:
* JavaScript values that flow through the duck-typed configuration checks are
  modelled by the inductive `JSVal` (undefined, booleans, strings, numbers,
  opaque functions, arrays, plain objects).
* The external search state (the `algoliasearch-helper` state object) is an
  abstract type `σ`; its mutating API surface is the inductive `StateOp`, and a
  host-supplied interpretation `applyOp : σ → StateOp → σ` gives the meaning of
  one method call.  The connector's own code never inspects the state beyond
  calling these methods.
* `getRefinements` and `clearRefinementsFromState` live in `src/lib/utils.js`,
  which is not part of the sources under verification; per the specification
  they are external collaborators and are kept abstract (fields of `Externals`).
* JavaScript exceptions are `Except String`; `Array.prototype.indexOf` is
  `jsIndexOf` (`-1` when absent); `Array.prototype.sort` is modelled as a
  stable comparison sort (`sortRefinements`, insertion sort).
-/

/-- One active refinement as produced by the external state collaborator.
Fields `operator`/`numericValue` are only populated for numeric refinements,
hence `Option`. -/
structure Refinement where
  type : String
  attributeName : String
  name : String
  operator : Option String
  numericValue : Option Int
deriving DecidableEq, Repr

/-- A duck-typed JavaScript value, as needed by the widget's configuration
validation (`isArray` / `isPlainObject` / `isString` / … checks). -/
inductive JSVal where
  | undefined : JSVal
  | bool : Bool → JSVal
  | str : String → JSVal
  | num : Int → JSVal
  | fn : Nat → JSVal
  | arr : List JSVal → JSVal
  | obj : List (String × JSVal) → JSVal

/-- lodash `isArray`. -/
def isArray : JSVal → Bool
  | .arr _ => true
  | _ => false

/-- lodash `isBoolean`. -/
def isBoolean : JSVal → Bool
  | .bool _ => true
  | _ => false

/-- lodash `isString`. -/
def isString : JSVal → Bool
  | .str _ => true
  | _ => false

/-- lodash `isPlainObject`: true only for plain objects (not arrays, not
functions, not primitives). -/
def isPlainObject : JSVal → Bool
  | .obj _ => true
  | _ => false

/-- lodash `isFunction`. -/
def isFunction : JSVal → Bool
  | .fn _ => true
  | _ => false

/-- lodash `isUndefined`. -/
def isUndefined : JSVal → Bool
  | .undefined => true
  | _ => false

/-- Property lookup in a plain object's own fields (first binding wins). -/
def jsObjLookup (key : String) : List (String × JSVal) → JSVal
  | [] => .undefined
  | (k, v) :: rest => if k = key then v else jsObjLookup key rest

/-- JavaScript property access `v[key]`: `undefined` on a non-object (the
connector only dereferences values it has already checked). -/
def jsGet (v : JSVal) (key : String) : JSVal :=
  match v with
  | .obj fields => jsObjLookup key fields
  | _ => .undefined

/-- Destructuring with a default, `const {x = d} = v`: the default applies
exactly when the property is `undefined`. -/
def jsGetD (v : JSVal) (key : String) (d : JSVal) : JSVal :=
  match jsGet v key with
  | .undefined => d
  | w => w

/-- The elements of an array value (the connector only applies this to values
it has checked with `isArray`). -/
def jsArrElems : JSVal → List JSVal
  | .arr xs => xs
  | _ => []

/-- The underlying string of a string value (the connector only applies this
to values it has checked with `isString`). -/
def jsStr : JSVal → String
  | .str s => s
  | _ => ""

/-- The underlying boolean of a boolean value (the connector only applies this
to values it has checked with `isBoolean`). -/
def jsBool : JSVal → Bool
  | .bool b => b
  | _ => false

/-- `Array.prototype.indexOf` on an array of strings: index of the first
occurrence, `-1` when absent. -/
def jsIndexOf : List String → String → Int
  | [], _ => -1
  | a :: as, x =>
    if a = x then 0
    else
      let r := jsIndexOf as x
      if r = -1 then -1 else r + 1

/-- One call into the external search state's mutating API.  The six
constructors are the six methods the connector invokes in
`clearRefinementFromState`. -/
inductive StateOp where
  | removeFacetRefinement : String → String → StateOp
  | removeDisjunctiveFacetRefinement : String → String → StateOp
  | clearRefinements : String → StateOp
  | removeExcludeRefinement : String → String → StateOp
  | removeNumericRefinement : String → Option String → Option Int → StateOp
  | removeTagRefinement : String → StateOp
deriving DecidableEq, Repr

/-- `clearRefinementFromState(state, refinement)`: dispatch on
`refinement.type`; each recognised type performs exactly one call into the
state's API (`applyOp` interprets that call), the default branch throws.
`Except.error` models the thrown `Error`. -/
def clearRefinementFromState {σ : Type} (applyOp : σ → StateOp → σ)
    (state : σ) (refinement : Refinement) : Except String σ :=
  match refinement.type with
  | "facet" =>
      .ok (applyOp state (.removeFacetRefinement refinement.attributeName refinement.name))
  | "disjunctive" =>
      .ok (applyOp state (.removeDisjunctiveFacetRefinement refinement.attributeName refinement.name))
  | "hierarchical" =>
      .ok (applyOp state (.clearRefinements refinement.attributeName))
  | "exclude" =>
      .ok (applyOp state (.removeExcludeRefinement refinement.attributeName refinement.name))
  | "numeric" =>
      .ok (applyOp state (.removeNumericRefinement refinement.attributeName refinement.operator refinement.numericValue))
  | "tag" =>
      .ok (applyOp state (.removeTagRefinement refinement.name))
  | _ =>
      .error ("clearRefinement: type " ++ refinement.type ++ " is not handled")

/-- C3: `clearRefinementFromState` dispatches on `refinement.type`: each of the
six recognised types invokes exactly the matching removal operation with
exactly the source's argument values (numeric passes `attributeName`,
`operator`, `numericValue`; tag passes `name` only; hierarchical clears all
refinements of `attributeName`), and any unrecognised type string throws an
error without performing any state operation (the result is an error for every
interpretation of the state API, so no operation was applied and the state is
unchanged). -/
theorem clearRefinementFromState_dispatch {σ : Type} (applyOp : σ → StateOp → σ)
    (state : σ) (r : Refinement) :
    (r.type = "facet" →
      clearRefinementFromState applyOp state r =
        .ok (applyOp state (.removeFacetRefinement r.attributeName r.name))) ∧
    (r.type = "disjunctive" →
      clearRefinementFromState applyOp state r =
        .ok (applyOp state (.removeDisjunctiveFacetRefinement r.attributeName r.name))) ∧
    (r.type = "hierarchical" →
      clearRefinementFromState applyOp state r =
        .ok (applyOp state (.clearRefinements r.attributeName))) ∧
    (r.type = "exclude" →
      clearRefinementFromState applyOp state r =
        .ok (applyOp state (.removeExcludeRefinement r.attributeName r.name))) ∧
    (r.type = "numeric" →
      clearRefinementFromState applyOp state r =
        .ok (applyOp state (.removeNumericRefinement r.attributeName r.operator r.numericValue))) ∧
    (r.type = "tag" →
      clearRefinementFromState applyOp state r =
        .ok (applyOp state (.removeTagRefinement r.name))) ∧
    (r.type ∉ ["facet", "disjunctive", "hierarchical", "exclude", "numeric", "tag"] →
      ∀ applyOp' : σ → StateOp → σ,
        clearRefinementFromState applyOp' state r =
          .error ("clearRefinement: type " ++ r.type ++ " is not handled")) := by
  obtain ⟨t, a, n, o, v⟩ := r
  refine ⟨fun h => by subst h; rfl, fun h => by subst h; rfl, fun h => by subst h; rfl,
    fun h => by subst h; rfl, fun h => by subst h; rfl, fun h => by subst h; rfl, ?_⟩
  intro h applyOp'
  simp only [List.mem_cons, List.not_mem_nil, or_false] at h
  push_neg at h
  obtain ⟨h1, h2, h3, h4, h5, h6⟩ := h
  simp only [clearRefinementFromState]

/-- Witness for C3 at concrete inputs: a numeric refinement on `price` with
operator `>=` and value `10` removes exactly that numeric refinement, and a
refinement of made-up type `bogus` throws. -/
theorem clearRefinementFromState_dispatch_witness :
    clearRefinementFromState (σ := List StateOp) (fun s op => op :: s) []
        ⟨"numeric", "price", "price >= 10", some ">=", some 10⟩ =
      .ok [.removeNumericRefinement "price" (some ">=") (some 10)] ∧
    clearRefinementFromState (σ := List StateOp) (fun s op => op :: s) []
        ⟨"bogus", "a", "b", none, none⟩ =
      .error "clearRefinement: type bogus is not handled" := by
  constructor
  · exact (clearRefinementFromState_dispatch (σ := List StateOp) (fun s op => op :: s) []
      ⟨"numeric", "price", "price >= 10", some ">=", some 10⟩).2.2.2.2.1 rfl
  · exact (clearRefinementFromState_dispatch (σ := List StateOp) (fun s op => op :: s) []
      ⟨"bogus", "a", "b", none, none⟩).2.2.2.2.2.2 (by decide) (fun s op => op :: s)

/-- `refinement.attributeName === -1` in the source: JavaScript strict equality
between a string and the number `-1`, which is always `false`. -/
def strictEqStringNegOne (_s : String) : Bool := false

/-- `res.indexOf(b)` where `res` is an array of strings and `b` a boolean:
`Array.prototype.indexOf` uses strict equality, and a boolean is never
strictly equal to a string, so the result is always `-1`. -/
def jsIndexOfBoolInStrings (_res : List String) (_b : Bool) : Int := -1

/-- JavaScript truthiness of a number: every non-zero number is truthy (in
particular `-1` is truthy). -/
def jsTruthyInt (n : Int) : Bool := n != 0

/-- The `reduce` in `getFilteredRefinements` computing `otherAttributeNames`.
The written membership check is
`res.indexOf(refinement.attributeName === -1)`, i.e. `indexOf` of the boolean
`refinement.attributeName === -1` — which is `-1`, a truthy value — so the
"already collected" guard always passes and duplicates are pushed. -/
def computeOtherAttributeNames (attributeNames : List String)
    (refinements : List Refinement) : List String :=
  refinements.foldl
    (fun res refinement =>
      if jsIndexOf attributeNames refinement.attributeName = -1 ∧
          jsTruthyInt (jsIndexOfBoolInStrings res (strictEqStringNegOne refinement.attributeName)) = true then
        res ++ [refinement.attributeName]
      else res)
    []

/-- Modelled from the spec (design note of §9): the deliberately fixed
collection of `otherAttributeNames`, whose membership check is
`res.indexOf(refinement.attributeName) === -1`, so each unlisted attribute
name is collected exactly once, in first-seen order. -/
def computeOtherAttributeNamesDedup (attributeNames : List String)
    (refinements : List Refinement) : List String :=
  refinements.foldl
    (fun res refinement =>
      if jsIndexOf attributeNames refinement.attributeName = -1 ∧
          jsIndexOf res refinement.attributeName = -1 then
        res ++ [refinement.attributeName]
      else res)
    []

/-- `getRestrictedIndexForSort(attributeNames, otherAttributeNames,
attributeName)`: position in `attributeNames` when present, otherwise
`attributeNames.length` plus the position in `otherAttributeNames`. -/
def getRestrictedIndexForSort (attributeNames otherAttributeNames : List String)
    (attributeName : String) : Int :=
  let idx := jsIndexOf attributeNames attributeName
  if idx ≠ -1 then idx
  else (attributeNames.length : Int) + jsIndexOf otherAttributeNames attributeName

/-- `compareRefinements(attributeNames, otherAttributeNames, a, b)`: primary
key the restricted index of the attribute name, secondary key the
refinement's `name` compared lexicographically. -/
def compareRefinements (attributeNames otherAttributeNames : List String)
    (a b : Refinement) : Int :=
  let idxa := getRestrictedIndexForSort attributeNames otherAttributeNames a.attributeName
  let idxb := getRestrictedIndexForSort attributeNames otherAttributeNames b.attributeName
  if idxa = idxb then
    if a.name = b.name then 0
    else if a.name < b.name then -1 else 1
  else if idxa < idxb then -1 else 1

/-- Insert one element into a list at the first position where the comparator
does not put it strictly after the head (the insertion step of a stable
comparison sort). -/
def insertSorted (cmp : Refinement → Refinement → Int) (a : Refinement) :
    List Refinement → List Refinement
  | [] => [a]
  | b :: bs => if cmp a b ≤ 0 then a :: b :: bs else b :: insertSorted cmp a bs

/-- `Array.prototype.sort(comparator)`, modelled as a stable comparison sort
(insertion sort).  The connector's comparator returns `0` only on pairs with
equal sort keys, so any correct comparison sort produces this output. -/
def sortRefinements (cmp : Refinement → Refinement → Int) :
    List Refinement → List Refinement
  | [] => []
  | a :: as => insertSorted cmp a (sortRefinements cmp as)

/-- `getFilteredRefinements(results, state, attributeNames,
onlyListedAttributes)`.  `getRefinements` lives in `src/lib/utils.js` (not
part of the sources under verification); per §4.2 it fetches the raw
active-refinement list from the external collaborator, so it is passed in as
an abstract function. -/
def getFilteredRefinements {σ : Type} (getRefinements : JSVal → σ → List Refinement)
    (results : JSVal) (state : σ) (attributeNames : List String)
    (onlyListedAttributes : Bool) : List Refinement :=
  let refinements := getRefinements results state
  let otherAttributeNames := computeOtherAttributeNames attributeNames refinements
  let sorted := sortRefinements (compareRefinements attributeNames otherAttributeNames) refinements
  if onlyListedAttributes && !attributeNames.isEmpty then
    sorted.filter (fun refinement => jsIndexOf attributeNames refinement.attributeName != -1)
  else sorted

/-- The variant of `getFilteredRefinements` whose `otherAttributeNames` is the
deduplicating collection of the design note (`computeOtherAttributeNamesDedup`);
everything else is identical. -/
def getFilteredRefinementsDedup {σ : Type} (getRefinements : JSVal → σ → List Refinement)
    (results : JSVal) (state : σ) (attributeNames : List String)
    (onlyListedAttributes : Bool) : List Refinement :=
  let refinements := getRefinements results state
  let otherAttributeNames := computeOtherAttributeNamesDedup attributeNames refinements
  let sorted := sortRefinements (compareRefinements attributeNames otherAttributeNames) refinements
  if onlyListedAttributes && !attributeNames.isEmpty then
    sorted.filter (fun refinement => jsIndexOf attributeNames refinement.attributeName != -1)
  else sorted

/-- State-passing form of `getFilteredRefinements`: the body of the source
function only reads its arguments (`indexOf` lookups, pushes onto the local
accumulator, a sort of the local array); it calls none of the state's
mutating API and assigns nothing to `results`, so both are returned
untouched alongside the result. -/
def getFilteredRefinementsTracked {σ : Type} (getRefinements : JSVal → σ → List Refinement)
    (results : JSVal) (state : σ) (attributeNames : List String)
    (onlyListedAttributes : Bool) : List Refinement × JSVal × σ :=
  let refinements := getRefinements results state
  let otherAttributeNames := computeOtherAttributeNames attributeNames refinements
  let sorted := sortRefinements (compareRefinements attributeNames otherAttributeNames) refinements
  if onlyListedAttributes && !attributeNames.isEmpty then
    (sorted.filter (fun refinement => jsIndexOf attributeNames refinement.attributeName != -1),
      results, state)
  else (sorted, results, state)

theorem jsIndexOf_neg_or_nonneg (l : List String) (x : String) :
    jsIndexOf l x = -1 ∨ 0 ≤ jsIndexOf l x := by
  induction l with
  | nil => left; rfl
  | cons a as ih =>
    simp only [jsIndexOf]
    by_cases h : a = x
    · simp [h]
    · simp only [h, if_false]
      by_cases h2 : jsIndexOf as x = -1
      · simp [h2]
      · simp only [h2, if_false]
        rcases ih with ih | ih
        · exact absurd ih h2
        · right; omega

theorem jsIndexOf_eq_neg_one_iff (l : List String) (x : String) :
    jsIndexOf l x = -1 ↔ x ∉ l := by
  induction l with
  | nil => simp [jsIndexOf]
  | cons a as ih =>
    simp only [jsIndexOf, List.mem_cons]
    by_cases h : a = x
    · simp [h]
    · simp only [h, if_false]
      by_cases h2 : jsIndexOf as x = -1
      · have hx : x ∉ as := ih.mp h2
        have hno : ¬(x = a ∨ x ∈ as) := by
          rintro (hc | hc)
          · exact h hc.symm
          · exact hx hc
        simp [h2, hno]
      · simp only [h2, if_false]
        have hnn : 0 ≤ jsIndexOf as x := by
          rcases jsIndexOf_neg_or_nonneg as x with hh | hh
          · exact absurd hh h2
          · exact hh
        have hx : x ∈ as := by
          by_contra hmem
          exact h2 (ih.mpr hmem)
        constructor
        · intro hc; omega
        · intro hc; exact absurd (Or.inr hx) hc

theorem jsIndexOf_nonneg_of_mem {l : List String} {x : String} (h : x ∈ l) :
    0 ≤ jsIndexOf l x := by
  rcases jsIndexOf_neg_or_nonneg l x with hh | hh
  · exact absurd h ((jsIndexOf_eq_neg_one_iff l x).mp hh)
  · exact hh

theorem jsIndexOf_cons_of_ne_of_mem {a x : String} {as : List String}
    (hne : a ≠ x) (hmem : x ∈ as) :
    jsIndexOf (a :: as) x = jsIndexOf as x + 1 := by
  have h2 : jsIndexOf as x ≠ -1 := by
    intro hc
    exact ((jsIndexOf_eq_neg_one_iff as x).mp hc) hmem
  simp [jsIndexOf, hne, h2]

theorem jsIndexOf_cons_self (a : String) (as : List String) :
    jsIndexOf (a :: as) a = 0 := by
  simp [jsIndexOf]

theorem jsIndexOf_lt_length {l : List String} {x : String} (h : x ∈ l) :
    jsIndexOf l x < (l.length : Int) := by
  induction l with
  | nil => cases h
  | cons a as ih =>
    by_cases he : a = x
    · subst he
      rw [jsIndexOf_cons_self]
      simp only [List.length_cons]
      push_cast
      omega
    · have hmem : x ∈ as := by
        rcases List.mem_cons.mp h with hc | hc
        · exact absurd hc.symm he
        · exact hc
      rw [jsIndexOf_cons_of_ne_of_mem he hmem]
      have := ih hmem
      simp only [List.length_cons]
      push_cast
      omega

theorem jsIndexOf_inj {l : List String} {x y : String}
    (hx : x ∈ l) (hy : y ∈ l) (h : jsIndexOf l x = jsIndexOf l y) : x = y := by
  induction l with
  | nil => cases hx
  | cons a as ih =>
    by_cases hax : a = x
    · by_cases hay : a = y
      · rw [← hax, ← hay]
      · subst hax
        have hmy : y ∈ as := by
          rcases List.mem_cons.mp hy with hc | hc
          · exact absurd hc.symm hay
          · exact hc
        rw [jsIndexOf_cons_self, jsIndexOf_cons_of_ne_of_mem hay hmy] at h
        have := jsIndexOf_nonneg_of_mem hmy
        omega
    · by_cases hay : a = y
      · subst hay
        have hmx : x ∈ as := by
          rcases List.mem_cons.mp hx with hc | hc
          · exact absurd hc.symm hax
          · exact hc
        rw [jsIndexOf_cons_self, jsIndexOf_cons_of_ne_of_mem hax hmx] at h
        have := jsIndexOf_nonneg_of_mem hmx
        omega
      · have hmx : x ∈ as := by
          rcases List.mem_cons.mp hx with hc | hc
          · exact absurd hc.symm hax
          · exact hc
        have hmy : y ∈ as := by
          rcases List.mem_cons.mp hy with hc | hc
          · exact absurd hc.symm hay
          · exact hc
        rw [jsIndexOf_cons_of_ne_of_mem hax hmx, jsIndexOf_cons_of_ne_of_mem hay hmy] at h
        exact ih hmx hmy (by omega)

theorem jsIndexOf_append_of_mem_left {l : List String} (m : List String) {x : String}
    (h : x ∈ l) : jsIndexOf (l ++ m) x = jsIndexOf l x := by
  induction l with
  | nil => cases h
  | cons a as ih =>
    by_cases he : a = x
    · subst he
      simp [jsIndexOf_cons_self]
    · have hmem : x ∈ as := by
        rcases List.mem_cons.mp h with hc | hc
        · exact absurd hc.symm he
        · exact hc
      have hmem2 : x ∈ as ++ m := List.mem_append.mpr (Or.inl hmem)
      rw [List.cons_append, jsIndexOf_cons_of_ne_of_mem he hmem2,
        jsIndexOf_cons_of_ne_of_mem he hmem, ih hmem]

theorem jsIndexOf_append_of_not_mem_left {l : List String} {m : List String} {x : String}
    (hl : x ∉ l) (hm : x ∈ m) :
    jsIndexOf (l ++ m) x = (l.length : Int) + jsIndexOf m x := by
  induction l with
  | nil => simp
  | cons a as ih =>
    have hne : a ≠ x := by
      intro hc
      exact hl (by rw [hc]; exact List.mem_cons_self x as)
    have has : x ∉ as := fun hc => hl (List.mem_cons_of_mem a hc)
    have hmem2 : x ∈ as ++ m := List.mem_append.mpr (Or.inr hm)
    rw [List.cons_append, jsIndexOf_cons_of_ne_of_mem hne hmem2, ih has]
    simp only [List.length_cons]
    push_cast
    omega

theorem mem_insertSorted (cmp : Refinement → Refinement → Int) (a z : Refinement)
    (l : List Refinement) : z ∈ insertSorted cmp a l ↔ z = a ∨ z ∈ l := by
  induction l with
  | nil => simp [insertSorted]
  | cons b bs ih =>
    simp only [insertSorted]
    by_cases h : cmp a b ≤ 0
    · rw [if_pos h]
      simp [List.mem_cons]
    · rw [if_neg h]
      simp only [List.mem_cons, ih]
      tauto

theorem insertSorted_perm (cmp : Refinement → Refinement → Int) (a : Refinement)
    (l : List Refinement) : (insertSorted cmp a l).Perm (a :: l) := by
  induction l with
  | nil => simp [insertSorted]
  | cons b bs ih =>
    simp only [insertSorted]
    by_cases h : cmp a b ≤ 0
    · rw [if_pos h]
    · rw [if_neg h]
      exact (List.Perm.cons b ih).trans (List.Perm.swap a b bs)

theorem sortRefinements_perm (cmp : Refinement → Refinement → Int)
    (l : List Refinement) : (sortRefinements cmp l).Perm l := by
  induction l with
  | nil => simp [sortRefinements]
  | cons a as ih =>
    simp only [sortRefinements]
    exact (insertSorted_perm cmp a (sortRefinements cmp as)).trans (List.Perm.cons a ih)

theorem mem_sortRefinements (cmp : Refinement → Refinement → Int)
    (l : List Refinement) (z : Refinement) :
    z ∈ sortRefinements cmp l ↔ z ∈ l :=
  (sortRefinements_perm cmp l).mem_iff

theorem pairwise_insertSorted (cmp : Refinement → Refinement → Int)
    (htot : ∀ a b, cmp a b ≤ 0 ∨ cmp b a ≤ 0)
    (htrans : ∀ a b c, cmp a b ≤ 0 → cmp b c ≤ 0 → cmp a c ≤ 0)
    (a : Refinement) (l : List Refinement)
    (h : l.Pairwise (fun x y => cmp x y ≤ 0)) :
    (insertSorted cmp a l).Pairwise (fun x y => cmp x y ≤ 0) := by
  induction l with
  | nil => simp [insertSorted]
  | cons b bs ih =>
    simp only [insertSorted]
    rcases List.pairwise_cons.mp h with ⟨hb, hbs⟩
    by_cases hc : cmp a b ≤ 0
    · rw [if_pos hc]
      refine List.pairwise_cons.mpr ⟨?_, h⟩
      intro z hz
      rcases List.mem_cons.mp hz with hz | hz
      · rw [hz]; exact hc
      · exact htrans a b z hc (hb z hz)
    · rw [if_neg hc]
      have hba : cmp b a ≤ 0 := by
        rcases htot a b with hh | hh
        · exact absurd hh hc
        · exact hh
      refine List.pairwise_cons.mpr ⟨?_, ih hbs⟩
      intro z hz
      rcases (mem_insertSorted cmp a z bs).mp hz with hz | hz
      · rw [hz]; exact hba
      · exact hb z hz

theorem pairwise_sortRefinements (cmp : Refinement → Refinement → Int)
    (htot : ∀ a b, cmp a b ≤ 0 ∨ cmp b a ≤ 0)
    (htrans : ∀ a b c, cmp a b ≤ 0 → cmp b c ≤ 0 → cmp a c ≤ 0)
    (l : List Refinement) :
    (sortRefinements cmp l).Pairwise (fun x y => cmp x y ≤ 0) := by
  induction l with
  | nil => simp [sortRefinements]
  | cons a as ih =>
    exact pairwise_insertSorted cmp htot htrans a (sortRefinements cmp as) ih

theorem insertSorted_congr (cmp1 cmp2 : Refinement → Refinement → Int)
    (a : Refinement) (l : List Refinement)
    (h : ∀ x ∈ a :: l, ∀ y ∈ a :: l, cmp1 x y = cmp2 x y) :
    insertSorted cmp1 a l = insertSorted cmp2 a l := by
  induction l with
  | nil => rfl
  | cons b bs ih =>
    have hab : cmp1 a b = cmp2 a b :=
      h a (List.mem_cons_self a (b :: bs)) b (List.mem_cons_of_mem a (List.mem_cons_self b bs))
    simp only [insertSorted, hab]
    by_cases hc : cmp2 a b ≤ 0
    · rw [if_pos hc, if_pos hc]
    · rw [if_neg hc, if_neg hc]
      have : insertSorted cmp1 a bs = insertSorted cmp2 a bs := by
        apply ih
        intro x hx y hy
        apply h
        · rcases List.mem_cons.mp hx with hx | hx
          · rw [hx]; exact List.mem_cons_self a (b :: bs)
          · exact List.mem_cons_of_mem a (List.mem_cons_of_mem b hx)
        · rcases List.mem_cons.mp hy with hy | hy
          · rw [hy]; exact List.mem_cons_self a (b :: bs)
          · exact List.mem_cons_of_mem a (List.mem_cons_of_mem b hy)
      rw [this]

theorem sortRefinements_congr (cmp1 cmp2 : Refinement → Refinement → Int)
    (l : List Refinement)
    (h : ∀ x ∈ l, ∀ y ∈ l, cmp1 x y = cmp2 x y) :
    sortRefinements cmp1 l = sortRefinements cmp2 l := by
  induction l with
  | nil => rfl
  | cons a as ih =>
    simp only [sortRefinements]
    have hs : sortRefinements cmp1 as = sortRefinements cmp2 as := by
      apply ih
      intro x hx y hy
      exact h x (List.mem_cons_of_mem a hx) y (List.mem_cons_of_mem a hy)
    rw [hs]
    apply insertSorted_congr
    intro x hx y hy
    apply h
    · rcases List.mem_cons.mp hx with hx | hx
      · rw [hx]; exact List.mem_cons_self a as
      · exact List.mem_cons_of_mem a ((mem_sortRefinements cmp2 as x).mp hx)
    · rcases List.mem_cons.mp hy with hy | hy
      · rw [hy]; exact List.mem_cons_self a as
      · exact List.mem_cons_of_mem a ((mem_sortRefinements cmp2 as y).mp hy)

theorem compareRefinements_le_iff (attributeNames otherAttributeNames : List String)
    (a b : Refinement) :
    compareRefinements attributeNames otherAttributeNames a b ≤ 0 ↔
      (getRestrictedIndexForSort attributeNames otherAttributeNames a.attributeName <
          getRestrictedIndexForSort attributeNames otherAttributeNames b.attributeName ∨
        (getRestrictedIndexForSort attributeNames otherAttributeNames a.attributeName =
            getRestrictedIndexForSort attributeNames otherAttributeNames b.attributeName ∧
          a.name ≤ b.name)) := by
  simp only [compareRefinements]
  set idxa := getRestrictedIndexForSort attributeNames otherAttributeNames a.attributeName with hia
  set idxb := getRestrictedIndexForSort attributeNames otherAttributeNames b.attributeName with hib
  by_cases heq : idxa = idxb
  · rw [if_pos heq]
    by_cases hne : a.name = b.name
    · rw [if_pos hne]
      simp [heq, hne, le_refl]
    · rw [if_neg hne]
      by_cases hlt : a.name < b.name
      · rw [if_pos hlt]
        constructor
        · intro _
          exact Or.inr ⟨heq, le_of_lt hlt⟩
        · intro _
          omega
      · rw [if_neg hlt]
        constructor
        · intro hc
          exfalso
          omega
        · rintro (hc | ⟨_, hle⟩)
          · exfalso
            omega
          rcases lt_or_eq_of_le hle with hc | hc
          · exact absurd hc hlt
          · exact absurd hc hne
  · rw [if_neg heq]
    by_cases hlt : idxa < idxb
    · rw [if_pos hlt]
      simp only [hlt, true_or, iff_true]
      omega
    · rw [if_neg hlt]
      constructor
      · intro hc; omega
      · rintro (hc | ⟨hc, _⟩)
        · exact absurd hc hlt
        · exact absurd hc heq

theorem compareRefinements_total (attributeNames otherAttributeNames : List String)
    (a b : Refinement) :
    compareRefinements attributeNames otherAttributeNames a b ≤ 0 ∨
      compareRefinements attributeNames otherAttributeNames b a ≤ 0 := by
  rw [compareRefinements_le_iff, compareRefinements_le_iff]
  rcases lt_trichotomy (getRestrictedIndexForSort attributeNames otherAttributeNames a.attributeName)
      (getRestrictedIndexForSort attributeNames otherAttributeNames b.attributeName) with h | h | h
  · exact Or.inl (Or.inl h)
  · rcases le_total a.name b.name with hn | hn
    · exact Or.inl (Or.inr ⟨h, hn⟩)
    · exact Or.inr (Or.inr ⟨h.symm, hn⟩)
  · exact Or.inr (Or.inl h)

theorem compareRefinements_trans (attributeNames otherAttributeNames : List String)
    (a b c : Refinement)
    (hab : compareRefinements attributeNames otherAttributeNames a b ≤ 0)
    (hbc : compareRefinements attributeNames otherAttributeNames b c ≤ 0) :
    compareRefinements attributeNames otherAttributeNames a c ≤ 0 := by
  rw [compareRefinements_le_iff] at hab hbc ⊢
  rcases hab with hab | ⟨hab, hab2⟩ <;> rcases hbc with hbc | ⟨hbc, hbc2⟩
  · exact Or.inl (lt_trans hab hbc)
  · exact Or.inl (by omega)
  · exact Or.inl (by omega)
  · exact Or.inr ⟨by omega, le_trans hab2 hbc2⟩

/-- The list of attribute names of the raw refinements that are not configured,
in refinement order and with duplicates kept (the value the buggy `reduce`
actually accumulates). -/
def unlistedNames (attributeNames : List String) (refinements : List Refinement) : List String :=
  refinements.filterMap
    (fun r => if jsIndexOf attributeNames r.attributeName = -1 then some r.attributeName else none)

theorem computeOtherAttributeNames_eq_unlistedNames (attributeNames : List String)
    (refinements : List Refinement) :
    computeOtherAttributeNames attributeNames refinements =
      unlistedNames attributeNames refinements := by
  have aux : ∀ (refs : List Refinement) (acc : List String),
      refs.foldl
        (fun res refinement =>
          if jsIndexOf attributeNames refinement.attributeName = -1 ∧
              jsTruthyInt (jsIndexOfBoolInStrings res (strictEqStringNegOne refinement.attributeName)) = true then
            res ++ [refinement.attributeName]
          else res)
        acc = acc ++ unlistedNames attributeNames refs := by
    intro refs
    induction refs with
    | nil => intro acc; simp [unlistedNames]
    | cons r rs ih =>
      intro acc
      simp only [List.foldl_cons, unlistedNames, List.filterMap_cons]
      by_cases h : jsIndexOf attributeNames r.attributeName = -1
      · rw [if_pos ⟨h, by rfl⟩, if_pos h]
        rw [ih (acc ++ [r.attributeName])]
        simp [unlistedNames]
      · rw [if_neg (by simp [h]), if_neg h]
        exact ih acc
  exact aux refinements []

theorem mem_unlistedNames {attributeNames : List String} {refinements : List Refinement}
    {r : Refinement} (hr : r ∈ refinements)
    (h : jsIndexOf attributeNames r.attributeName = -1) :
    r.attributeName ∈ unlistedNames attributeNames refinements :=
  List.mem_filterMap.mpr ⟨r, hr, by rw [if_pos h]⟩

theorem getRestrictedIndexForSort_eq_concatIndex (attributeNames : List String)
    (refinements : List Refinement) {r : Refinement} (hr : r ∈ refinements) :
    getRestrictedIndexForSort attributeNames
        (computeOtherAttributeNames attributeNames refinements) r.attributeName =
      jsIndexOf (attributeNames ++ computeOtherAttributeNames attributeNames refinements)
        r.attributeName := by
  simp only [getRestrictedIndexForSort]
  by_cases h : jsIndexOf attributeNames r.attributeName = -1
  · rw [if_neg (by simp [h])]
    have hmem : r.attributeName ∈ computeOtherAttributeNames attributeNames refinements := by
      rw [computeOtherAttributeNames_eq_unlistedNames]
      exact mem_unlistedNames hr h
    have hnot : r.attributeName ∉ attributeNames := (jsIndexOf_eq_neg_one_iff _ _).mp h
    rw [jsIndexOf_append_of_not_mem_left hnot hmem]
  · rw [if_pos h]
    have hmem : r.attributeName ∈ attributeNames := by
      by_contra hc
      exact h ((jsIndexOf_eq_neg_one_iff _ _).mpr hc)
    rw [jsIndexOf_append_of_mem_left _ hmem]

/-- C1: the output of `getFilteredRefinements` is ordered by the two-level
comparator: the primary key of a refinement is the position of its
`attributeName` in the concatenation `attributeNames ++ otherAttributeNames`
(so configured attributes sort first, in configured order, and unlisted
attributes after them in first-seen order), and ties on the primary key are
ordered by lexicographic comparison of the `name` field ascending. -/
theorem getFilteredRefinements_sorted {σ : Type}
    (getRefinements : JSVal → σ → List Refinement) (results : JSVal) (state : σ)
    (attributeNames : List String) (onlyListedAttributes : Bool) :
    (getFilteredRefinements getRefinements results state attributeNames onlyListedAttributes).Pairwise
      (fun a b =>
        jsIndexOf (attributeNames ++
            computeOtherAttributeNames attributeNames (getRefinements results state))
            a.attributeName <
          jsIndexOf (attributeNames ++
              computeOtherAttributeNames attributeNames (getRefinements results state))
            b.attributeName ∨
        (jsIndexOf (attributeNames ++
              computeOtherAttributeNames attributeNames (getRefinements results state))
            a.attributeName =
          jsIndexOf (attributeNames ++
              computeOtherAttributeNames attributeNames (getRefinements results state))
            b.attributeName ∧
          a.name ≤ b.name)) := by
  have hsorted :
      (sortRefinements
          (compareRefinements attributeNames
            (computeOtherAttributeNames attributeNames (getRefinements results state)))
          (getRefinements results state)).Pairwise
        (fun a b =>
          jsIndexOf (attributeNames ++
              computeOtherAttributeNames attributeNames (getRefinements results state))
              a.attributeName <
            jsIndexOf (attributeNames ++
                computeOtherAttributeNames attributeNames (getRefinements results state))
              b.attributeName ∨
          (jsIndexOf (attributeNames ++
                computeOtherAttributeNames attributeNames (getRefinements results state))
              a.attributeName =
            jsIndexOf (attributeNames ++
                computeOtherAttributeNames attributeNames (getRefinements results state))
              b.attributeName ∧
            a.name ≤ b.name)) := by
    have hp := pairwise_sortRefinements
      (compareRefinements attributeNames
        (computeOtherAttributeNames attributeNames (getRefinements results state)))
      (compareRefinements_total attributeNames _)
      (compareRefinements_trans attributeNames _)
      (getRefinements results state)
    refine List.Pairwise.imp_of_mem ?_ hp
    intro a b ha hb hle
    have ha2 : a ∈ getRefinements results state := (mem_sortRefinements _ _ a).mp ha
    have hb2 : b ∈ getRefinements results state := (mem_sortRefinements _ _ b).mp hb
    rw [compareRefinements_le_iff,
      getRestrictedIndexForSort_eq_concatIndex attributeNames _ ha2,
      getRestrictedIndexForSort_eq_concatIndex attributeNames _ hb2] at hle
    exact hle
  simp only [getFilteredRefinements]
  by_cases hcond : (onlyListedAttributes && !attributeNames.isEmpty) = true
  · rw [if_pos hcond]
    exact List.Pairwise.sublist (List.filter_sublist _) hsorted
  · rw [if_neg hcond]
    exact hsorted

/-- C2 (counter-evaluation): with no configured attribute names and two raw
refinements on the same unlisted attribute `c`, the `reduce` in
`getFilteredRefinements` collects `c` twice — the "already collected" check
`res.indexOf(refinement.attributeName === -1)` evaluates `indexOf` of a
boolean, which is `-1` and hence truthy, so nothing is ever deduplicated.
The claim's `otherAttributeNames` would be `["c"]`; the code computes
`["c", "c"]`. -/
theorem computeOtherAttributeNames_duplicates :
    computeOtherAttributeNames []
        [⟨"facet", "c", "x", none, none⟩, ⟨"facet", "c", "y", none, none⟩] =
      ["c", "c"] ∧
    computeOtherAttributeNamesDedup []
        [⟨"facet", "c", "x", none, none⟩, ⟨"facet", "c", "y", none, none⟩] =
      ["c"] := by
  constructor <;> rfl

/-- C5: with `onlyListedAttributes = true` and a non-empty `attributeNames`,
`getFilteredRefinements` drops exactly the refinements whose `attributeName`
is not in `attributeNames` (the retained ones keep their relative sorted
order: the output is the filter of the unfiltered output); with
`onlyListedAttributes = true` and empty `attributeNames` nothing is dropped;
with `onlyListedAttributes = false` nothing is dropped (the unfiltered output
is a permutation of the raw refinement list). -/
theorem getFilteredRefinements_filtering {σ : Type}
    (getRefinements : JSVal → σ → List Refinement) (results : JSVal) (state : σ)
    (attributeNames : List String) :
    (attributeNames ≠ [] →
      getFilteredRefinements getRefinements results state attributeNames true =
        (getFilteredRefinements getRefinements results state attributeNames false).filter
          (fun r => decide (r.attributeName ∈ attributeNames))) ∧
    (attributeNames = [] →
      getFilteredRefinements getRefinements results state attributeNames true =
        getFilteredRefinements getRefinements results state attributeNames false) ∧
    (getFilteredRefinements getRefinements results state attributeNames false).Perm
      (getRefinements results state) := by
  refine ⟨?_, ?_, ?_⟩
  · intro hne
    have hcond : (true && !attributeNames.isEmpty) = true := by
      cases attributeNames with
      | nil => exact absurd rfl hne
      | cons a as => rfl
    simp only [getFilteredRefinements, hcond, Bool.false_and]
    rw [if_neg (by simp : ¬(false = true))]
    apply List.filter_congr
    intro r _
    have : (jsIndexOf attributeNames r.attributeName != -1) =
        decide (r.attributeName ∈ attributeNames) := by
      by_cases hm : r.attributeName ∈ attributeNames
      · have : jsIndexOf attributeNames r.attributeName ≠ -1 := by
          intro hc
          exact ((jsIndexOf_eq_neg_one_iff _ _).mp hc) hm
        simp [hm, this]
      · have : jsIndexOf attributeNames r.attributeName = -1 :=
          (jsIndexOf_eq_neg_one_iff _ _).mpr hm
        simp [hm, this]
    rw [this]
  · intro he
    subst he
    rfl
  · simp only [getFilteredRefinements, Bool.false_and, Bool.and_false]
    rw [if_neg (by simp)]
    exact sortRefinements_perm _ _

/-- Witness for C5 at concrete inputs: one refinement on configured `a` and
one on unconfigured `b`; with the allowlist active only the `a` refinement
survives, and the unfiltered output is a permutation of the raw list. -/
theorem getFilteredRefinements_filtering_witness :
    getFilteredRefinements (σ := Unit)
        (fun _ _ => [⟨"facet", "b", "y", none, none⟩, ⟨"facet", "a", "x", none, none⟩])
        (JSVal.obj []) () ["a"] true =
      [⟨"facet", "a", "x", none, none⟩] ∧
    (getFilteredRefinements (σ := Unit)
        (fun _ _ => [⟨"facet", "b", "y", none, none⟩, ⟨"facet", "a", "x", none, none⟩])
        (JSVal.obj []) () ["a"] false).Perm
      [⟨"facet", "b", "y", none, none⟩, ⟨"facet", "a", "x", none, none⟩] := by
  have h := getFilteredRefinements_filtering (σ := Unit)
    (fun _ _ => [⟨"facet", "b", "y", none, none⟩, ⟨"facet", "a", "x", none, none⟩])
    (JSVal.obj []) () ["a"]
  refine ⟨?_, h.2.2⟩
  rw [h.1 (by simp)]
  rfl

/-- C9: `getFilteredRefinements` is a pure function of its four inputs — equal
inputs give equal outputs — and its state-passing form returns the `state`
and `results` arguments untouched (the body contains no call into the
state's mutating API and no assignment to `results`). -/
theorem getFilteredRefinements_pure {σ : Type}
    (getRefinements : JSVal → σ → List Refinement)
    (results results2 : JSVal) (state state2 : σ)
    (attributeNames attributeNames2 : List String)
    (onlyListedAttributes onlyListedAttributes2 : Bool)
    (hr : results = results2) (hs : state = state2)
    (ha : attributeNames = attributeNames2)
    (ho : onlyListedAttributes = onlyListedAttributes2) :
    getFilteredRefinements getRefinements results state attributeNames onlyListedAttributes =
      getFilteredRefinements getRefinements results2 state2 attributeNames2
        onlyListedAttributes2 ∧
    getFilteredRefinementsTracked getRefinements results state attributeNames
        onlyListedAttributes =
      (getFilteredRefinements getRefinements results state attributeNames onlyListedAttributes,
        results, state) := by
  subst hr hs ha ho
  refine ⟨rfl, ?_⟩
  simp only [getFilteredRefinementsTracked, getFilteredRefinements]
  by_cases hcond : (onlyListedAttributes && !attributeNames.isEmpty) = true
  · rw [if_pos hcond, if_pos hcond]
  · rw [if_neg hcond, if_neg hcond]

/-- Witness for C9 at concrete inputs. -/
theorem getFilteredRefinements_pure_witness :
    getFilteredRefinements (σ := Nat) (fun _ _ => [⟨"facet", "a", "x", none, none⟩])
        (JSVal.obj []) 7 ["a"] false =
      [⟨"facet", "a", "x", none, none⟩] ∧
    getFilteredRefinementsTracked (σ := Nat) (fun _ _ => [⟨"facet", "a", "x", none, none⟩])
        (JSVal.obj []) 7 ["a"] false =
      ([⟨"facet", "a", "x", none, none⟩], JSVal.obj [], 7) := by
  have h := getFilteredRefinements_pure (σ := Nat)
    (fun _ _ => [⟨"facet", "a", "x", none, none⟩])
    (JSVal.obj []) (JSVal.obj []) 7 7 ["a"] ["a"] false false rfl rfl rfl rfl
  constructor
  · rfl
  · rw [h.2]
    rfl

/-- First-occurrence deduplication, parameterised by the set of names already
seen. -/
def firstDedup (seen : List String) : List String → List String
  | [] => []
  | x :: xs => if x ∈ seen then firstDedup seen xs else x :: firstDedup (x :: seen) xs

theorem firstDedup_seen_congr {seen1 seen2 : List String}
    (h : ∀ z, z ∈ seen1 ↔ z ∈ seen2) (l : List String) :
    firstDedup seen1 l = firstDedup seen2 l := by
  induction l generalizing seen1 seen2 with
  | nil => rfl
  | cons x xs ih =>
    simp only [firstDedup]
    by_cases hx : x ∈ seen1
    · rw [if_pos hx, if_pos ((h x).mp hx)]
      exact ih h
    · rw [if_neg hx, if_neg (fun hc => hx ((h x).mpr hc))]
      have h2 : ∀ z, z ∈ x :: seen1 ↔ z ∈ x :: seen2 := by
        intro z
        simp only [List.mem_cons]
        rw [h z]
      rw [ih h2]

theorem mem_firstDedup (seen l : List String) (z : String) :
    z ∈ firstDedup seen l ↔ z ∈ l ∧ z ∉ seen := by
  induction l generalizing seen with
  | nil => simp [firstDedup]
  | cons x xs ih =>
    simp only [firstDedup]
    by_cases hx : x ∈ seen
    · rw [if_pos hx, ih]
      simp only [List.mem_cons]
      constructor
      · rintro ⟨hz, hns⟩
        exact ⟨Or.inr hz, hns⟩
      · rintro ⟨hz | hz, hns⟩
        · exact absurd (hz ▸ hx) hns
        · exact ⟨hz, hns⟩
    · rw [if_neg hx]
      simp only [List.mem_cons, ih, List.mem_cons]
      constructor
      · rintro (hz | ⟨hz, hns⟩)
        · exact ⟨Or.inl hz, hz ▸ hx⟩
        · exact ⟨Or.inr hz, fun hc => hns (Or.inr hc)⟩
      · rintro ⟨hz | hz, hns⟩
        · exact Or.inl hz
        · by_cases hzx : z = x
          · exact Or.inl hzx
          · refine Or.inr ⟨hz, ?_⟩
            rintro (hc | hc)
            · exact hzx hc
            · exact hns hc

theorem computeOtherAttributeNamesDedup_eq_firstDedup (attributeNames : List String)
    (refinements : List Refinement) :
    computeOtherAttributeNamesDedup attributeNames refinements =
      firstDedup [] (unlistedNames attributeNames refinements) := by
  have aux : ∀ (refs : List Refinement) (acc : List String),
      refs.foldl
        (fun res refinement =>
          if jsIndexOf attributeNames refinement.attributeName = -1 ∧
              jsIndexOf res refinement.attributeName = -1 then
            res ++ [refinement.attributeName]
          else res)
        acc = acc ++ firstDedup acc (unlistedNames attributeNames refs) := by
    intro refs
    induction refs with
    | nil => intro acc; simp [unlistedNames, firstDedup]
    | cons r rs ih =>
      intro acc
      simp only [List.foldl_cons, unlistedNames, List.filterMap_cons]
      by_cases hA : jsIndexOf attributeNames r.attributeName = -1
      · rw [if_pos hA]
        by_cases hacc : r.attributeName ∈ acc
        · have hne : jsIndexOf acc r.attributeName ≠ -1 := by
            intro hc
            exact ((jsIndexOf_eq_neg_one_iff _ _).mp hc) hacc
          rw [if_neg (by rintro ⟨_, hc⟩; exact hne hc)]
          rw [ih acc]
          simp only [unlistedNames, firstDedup]
          rw [if_pos hacc]
        · have heq : jsIndexOf acc r.attributeName = -1 :=
            (jsIndexOf_eq_neg_one_iff _ _).mpr hacc
          rw [if_pos ⟨hA, heq⟩, ih (acc ++ [r.attributeName])]
          simp only [unlistedNames, firstDedup]
          rw [if_neg hacc, List.append_assoc]
          congr 1
          simp only [List.singleton_append, List.cons.injEq, true_and]
          apply firstDedup_seen_congr
          intro z
          simp only [List.mem_append, List.mem_singleton, List.mem_cons]
          tauto
      · rw [if_neg (by rintro ⟨hc, _⟩; exact hA hc), if_neg hA]
        exact ih acc
  exact aux refinements []

theorem firstDedup_lt_iff (l : List String) :
    ∀ (seen : List String) (x y : String), x ∈ l → y ∈ l → x ∉ seen → y ∉ seen →
      (jsIndexOf l x < jsIndexOf l y ↔
        jsIndexOf (firstDedup seen l) x < jsIndexOf (firstDedup seen l) y) := by
  induction l with
  | nil => intro seen x y hx; cases hx
  | cons a t ih =>
    intro seen x y hx hy hxs hys
    simp only [firstDedup]
    by_cases ha : a ∈ seen
    · rw [if_pos ha]
      have hxa : x ≠ a := fun hc => hxs (hc ▸ ha)
      have hya : y ≠ a := fun hc => hys (hc ▸ ha)
      have hxt : x ∈ t := by
        rcases List.mem_cons.mp hx with hc | hc
        · exact absurd hc hxa
        · exact hc
      have hyt : y ∈ t := by
        rcases List.mem_cons.mp hy with hc | hc
        · exact absurd hc hya
        · exact hc
      rw [jsIndexOf_cons_of_ne_of_mem (fun hc => hxa hc.symm) hxt,
        jsIndexOf_cons_of_ne_of_mem (fun hc => hya hc.symm) hyt]
      rw [show (jsIndexOf t x + 1 < jsIndexOf t y + 1) ↔
          (jsIndexOf t x < jsIndexOf t y) by omega]
      exact ih seen x y hxt hyt hxs hys
    · rw [if_neg ha]
      by_cases hxa : x = a
      · by_cases hya : y = a
        · subst hxa; subst hya
          simp
        · subst hxa
          have hyt : y ∈ t := by
            rcases List.mem_cons.mp hy with hc | hc
            · exact absurd hc hya
            · exact hc
          have hyd : y ∈ firstDedup (x :: seen) t := by
            rw [mem_firstDedup]
            refine ⟨hyt, ?_⟩
            intro hc
            rcases List.mem_cons.mp hc with hc | hc
            · exact hya hc
            · exact hys hc
          rw [jsIndexOf_cons_self, jsIndexOf_cons_self,
            jsIndexOf_cons_of_ne_of_mem (fun hc => hya hc.symm) hyt,
            jsIndexOf_cons_of_ne_of_mem (fun hc => hya hc.symm) hyd]
          have h1 := jsIndexOf_nonneg_of_mem hyt
          have h2 := jsIndexOf_nonneg_of_mem hyd
          constructor
          · intro _; omega
          · intro _; omega
      · by_cases hya : y = a
        · subst hya
          have hxt : x ∈ t := by
            rcases List.mem_cons.mp hx with hc | hc
            · exact absurd hc hxa
            · exact hc
          have hxd : x ∈ firstDedup (y :: seen) t := by
            rw [mem_firstDedup]
            refine ⟨hxt, ?_⟩
            intro hc
            rcases List.mem_cons.mp hc with hc | hc
            · exact hxa hc
            · exact hxs hc
          rw [jsIndexOf_cons_self, jsIndexOf_cons_self,
            jsIndexOf_cons_of_ne_of_mem (fun hc => hxa hc.symm) hxt,
            jsIndexOf_cons_of_ne_of_mem (fun hc => hxa hc.symm) hxd]
          have h1 := jsIndexOf_nonneg_of_mem hxt
          have h2 := jsIndexOf_nonneg_of_mem hxd
          constructor
          · intro hcc; omega
          · intro hcc; omega
        · have hxt : x ∈ t := by
            rcases List.mem_cons.mp hx with hc | hc
            · exact absurd hc hxa
            · exact hc
          have hyt : y ∈ t := by
            rcases List.mem_cons.mp hy with hc | hc
            · exact absurd hc hya
            · exact hc
          have hxd : x ∈ firstDedup (a :: seen) t := by
            rw [mem_firstDedup]
            refine ⟨hxt, ?_⟩
            intro hc
            rcases List.mem_cons.mp hc with hc | hc
            · exact hxa hc
            · exact hxs hc
          have hyd : y ∈ firstDedup (a :: seen) t := by
            rw [mem_firstDedup]
            refine ⟨hyt, ?_⟩
            intro hc
            rcases List.mem_cons.mp hc with hc | hc
            · exact hya hc
            · exact hys hc
          rw [jsIndexOf_cons_of_ne_of_mem (fun hc => hxa hc.symm) hxt,
            jsIndexOf_cons_of_ne_of_mem (fun hc => hya hc.symm) hyt,
            jsIndexOf_cons_of_ne_of_mem (fun hc => hxa hc.symm) hxd,
            jsIndexOf_cons_of_ne_of_mem (fun hc => hya hc.symm) hyd]
          rw [show (jsIndexOf t x + 1 < jsIndexOf t y + 1) ↔
              (jsIndexOf t x < jsIndexOf t y) by omega,
            show (jsIndexOf (firstDedup (a :: seen) t) x + 1 <
                jsIndexOf (firstDedup (a :: seen) t) y + 1) ↔
              (jsIndexOf (firstDedup (a :: seen) t) x <
                jsIndexOf (firstDedup (a :: seen) t) y) by omega]
          refine ih (a :: seen) x y hxt hyt ?_ ?_
          · intro hc
            rcases List.mem_cons.mp hc with hc | hc
            · exact hxa hc
            · exact hxs hc
          · intro hc
            rcases List.mem_cons.mp hc with hc | hc
            · exact hya hc
            · exact hys hc

theorem getRestrictedIndexForSort_rel_congr (attributeNames l : List String)
    {x y : String}
    (hx : jsIndexOf attributeNames x = -1 → x ∈ l)
    (hy : jsIndexOf attributeNames y = -1 → y ∈ l) :
    ((getRestrictedIndexForSort attributeNames l x <
        getRestrictedIndexForSort attributeNames l y) ↔
      (getRestrictedIndexForSort attributeNames (firstDedup [] l) x <
        getRestrictedIndexForSort attributeNames (firstDedup [] l) y)) ∧
    ((getRestrictedIndexForSort attributeNames l x =
        getRestrictedIndexForSort attributeNames l y) ↔
      (getRestrictedIndexForSort attributeNames (firstDedup [] l) x =
        getRestrictedIndexForSort attributeNames (firstDedup [] l) y)) := by
  simp only [getRestrictedIndexForSort]
  by_cases hxA : jsIndexOf attributeNames x = -1
  · by_cases hyA : jsIndexOf attributeNames y = -1
    · -- both unlisted
      have hxl : x ∈ l := hx hxA
      have hyl : y ∈ l := hy hyA
      have hxd : x ∈ firstDedup [] l := (mem_firstDedup [] l x).mpr ⟨hxl, by simp⟩
      have hyd : y ∈ firstDedup [] l := (mem_firstDedup [] l y).mpr ⟨hyl, by simp⟩
      rw [if_neg (by simp [hxA]), if_neg (by simp [hyA]),
        if_neg (by simp [hxA]), if_neg (by simp [hyA])]
      constructor
      · rw [show ((attributeNames.length : Int) + jsIndexOf l x <
            (attributeNames.length : Int) + jsIndexOf l y) ↔
            (jsIndexOf l x < jsIndexOf l y) by omega,
          show ((attributeNames.length : Int) + jsIndexOf (firstDedup [] l) x <
            (attributeNames.length : Int) + jsIndexOf (firstDedup [] l) y) ↔
            (jsIndexOf (firstDedup [] l) x < jsIndexOf (firstDedup [] l) y) by omega]
        exact firstDedup_lt_iff l [] x y hxl hyl (by simp) (by simp)
      · rw [show ((attributeNames.length : Int) + jsIndexOf l x =
            (attributeNames.length : Int) + jsIndexOf l y) ↔
            (jsIndexOf l x = jsIndexOf l y) by omega,
          show ((attributeNames.length : Int) + jsIndexOf (firstDedup [] l) x =
            (attributeNames.length : Int) + jsIndexOf (firstDedup [] l) y) ↔
            (jsIndexOf (firstDedup [] l) x = jsIndexOf (firstDedup [] l) y) by omega]
        constructor
        · intro h
          rw [jsIndexOf_inj hxl hyl h]
        · intro h
          rw [jsIndexOf_inj hxd hyd h]
    · -- x unlisted, y listed
      have hxl : x ∈ l := hx hxA
      have hxd : x ∈ firstDedup [] l := (mem_firstDedup [] l x).mpr ⟨hxl, by simp⟩
      have hyA2 : jsIndexOf attributeNames y ≠ -1 := hyA
      have hymem : y ∈ attributeNames := by
        by_contra hc
        exact hyA ((jsIndexOf_eq_neg_one_iff _ _).mpr hc)
      have hylt := jsIndexOf_lt_length hymem
      have hx1 := jsIndexOf_nonneg_of_mem hxl
      have hx2 := jsIndexOf_nonneg_of_mem hxd
      rw [if_neg (by simp [hxA]), if_pos (by simp [hyA2]),
        if_neg (by simp [hxA]), if_pos (by simp [hyA2])]
      constructor
      · constructor
        · intro hcc; omega
        · intro hcc; omega
      · constructor
        · intro hcc; omega
        · intro hcc; omega
  · by_cases hyA : jsIndexOf attributeNames y = -1
    · -- x listed, y unlisted
      have hyl : y ∈ l := hy hyA
      have hyd : y ∈ firstDedup [] l := (mem_firstDedup [] l y).mpr ⟨hyl, by simp⟩
      have hxmem : x ∈ attributeNames := by
        by_contra hc
        exact hxA ((jsIndexOf_eq_neg_one_iff _ _).mpr hc)
      have hxlt := jsIndexOf_lt_length hxmem
      have hy1 := jsIndexOf_nonneg_of_mem hyl
      have hy2 := jsIndexOf_nonneg_of_mem hyd
      rw [if_pos (by simp [hxA]), if_neg (by simp [hyA]),
        if_pos (by simp [hxA]), if_neg (by simp [hyA])]
      constructor
      · constructor
        · intro _; omega
        · intro _; omega
      · constructor
        · intro hcc; omega
        · intro hcc; omega
    · -- both listed: identical keys on both sides
      rw [if_pos (by simp [hxA]), if_pos (by simp [hyA]),
        if_pos (by simp [hxA]), if_pos (by simp [hyA])]
      exact ⟨Iff.rfl, Iff.rfl⟩

theorem compareRefinements_dedup_congr (attributeNames l : List String)
    {a b : Refinement}
    (ha : jsIndexOf attributeNames a.attributeName = -1 → a.attributeName ∈ l)
    (hb : jsIndexOf attributeNames b.attributeName = -1 → b.attributeName ∈ l) :
    compareRefinements attributeNames l a b =
      compareRefinements attributeNames (firstDedup [] l) a b := by
  obtain ⟨hltiff, heqiff⟩ := getRestrictedIndexForSort_rel_congr attributeNames l ha hb
  simp only [compareRefinements]
  by_cases heq : getRestrictedIndexForSort attributeNames l a.attributeName =
      getRestrictedIndexForSort attributeNames l b.attributeName
  · rw [if_pos heq, if_pos (heqiff.mp heq)]
  · rw [if_neg heq, if_neg (fun hc => heq (heqiff.mpr hc))]
    by_cases hlt : getRestrictedIndexForSort attributeNames l a.attributeName <
        getRestrictedIndexForSort attributeNames l b.attributeName
    · rw [if_pos hlt, if_pos (hltiff.mp hlt)]
    · rw [if_neg hlt, if_neg (fun hc => hlt (hltiff.mpr hc))]

/-- C10: replacing the (non-deduplicating) `otherAttributeNames` collection by
its correctly deduplicating version changes nothing in the output of
`getFilteredRefinements`: `indexOf` returns the position of the first
occurrence, so the induced comparator is identical and the sorted, filtered
output is the same list. -/
theorem getFilteredRefinements_eq_dedup {σ : Type}
    (getRefinements : JSVal → σ → List Refinement) (results : JSVal) (state : σ)
    (attributeNames : List String) (onlyListedAttributes : Bool) :
    getFilteredRefinements getRefinements results state attributeNames onlyListedAttributes =
      getFilteredRefinementsDedup getRefinements results state attributeNames
        onlyListedAttributes := by
  simp only [getFilteredRefinements, getFilteredRefinementsDedup]
  have hother : computeOtherAttributeNamesDedup attributeNames (getRefinements results state) =
      firstDedup [] (computeOtherAttributeNames attributeNames (getRefinements results state)) := by
    rw [computeOtherAttributeNamesDedup_eq_firstDedup,
      computeOtherAttributeNames_eq_unlistedNames]
  rw [hother]
  have hs : sortRefinements
      (compareRefinements attributeNames
        (computeOtherAttributeNames attributeNames (getRefinements results state)))
      (getRefinements results state) =
    sortRefinements
      (compareRefinements attributeNames
        (firstDedup [] (computeOtherAttributeNames attributeNames (getRefinements results state))))
      (getRefinements results state) := by
    apply sortRefinements_congr
    intro x hx y hy
    apply compareRefinements_dedup_congr
    · intro hA
      rw [computeOtherAttributeNames_eq_unlistedNames]
      exact mem_unlistedNames hx hA
    · intro hA
      rw [computeOtherAttributeNames_eq_unlistedNames]
      exact mem_unlistedNames hy hA
  rw [hs]

/-- The usage message thrown on invalid widget options. -/
def usage : String :=
  "Usage:\nvar customCurrentRefinedValues = connectCurrentRefinedValues(function renderFn(params, isFirstRendering) \x7b\n  // params = \x7b\n  //   attributes,\n  //   clearAllClick,\n  //   clearAllPosition,\n  //   clearAllURL,\n  //   clearRefinementClicks,\n  //   clearRefinementURLs,\n  //   refinements,\n  //   instantSearchInstance,\n  //   widgetParams,\n  // \x7d\n\x7d);\nsearch.addWidget(\n  customCurrentRefinedValues(\x7b\n    [ attributes = [] ],\n    [ onlyListedAttributes = false ],\n  \x7d)\n);\nFull documentation available at https://community.algolia.com/instantsearch.js/connectors/connectCurrentRefinedValues.html\n"

/-- The per-element check inside the factory's `reduce` over `attributes`. -/
def attributeCheck (val : JSVal) : Bool :=
  isPlainObject val && isString (jsGet val "name") &&
    (isUndefined (jsGet val "label") || isString (jsGet val "label")) &&
    (isUndefined (jsGet val "template") || isString (jsGet val "template") ||
      isFunction (jsGet val "template")) &&
    (isUndefined (jsGet val "transformData") || isFunction (jsGet val "transformData"))

/-- The widget configuration the factory precomputes after validation and
captures in the returned widget object. -/
structure WidgetConfig where
  widgetParams : JSVal
  attributeNames : List String
  restrictedTo : List String
  attributesObj : List (String × JSVal)
  onlyListedAttributes : Bool

/-- `res[attribute.name] = attribute` on a plain object: overwrite the value
of an existing key in place, or append a new binding. -/
def jsObjSet : List (String × JSVal) → String → JSVal → List (String × JSVal)
  | [], k, v => [(k, v)]
  | (k2, v2) :: rest, k, v =>
    if k2 = k then (k, v) :: rest else (k2, v2) :: jsObjSet rest k v

/-- The factory `connectCurrentRefinedValues(renderFn)(widgetParams)`:
destructures `attributes` (default `[]`) and `onlyListedAttributes` (default
`false`), validates them (`showUsage = false || !isArray(attributes) ||
!attributesOK || !isBoolean(onlyListedAttributes)`), throws the usage error
when invalid, and otherwise precomputes `attributeNames`, `restrictedTo` and
`attributesObj`.  The returned widget's methods are `widgetInit` and
`widgetRender` applied to this configuration. -/
def connectCurrentRefinedValues (widgetParams : JSVal) : Except String WidgetConfig :=
  let attributes := jsGetD widgetParams "attributes" (.arr [])
  let onlyListedAttributes := jsGetD widgetParams "onlyListedAttributes" (.bool false)
  let attributesOK := isArray attributes &&
    (jsArrElems attributes).foldl (fun res val => res && attributeCheck val) true
  let showUsage := !isArray attributes || !attributesOK || !isBoolean onlyListedAttributes
  if showUsage = true then .error usage
  else
    let attributeNames := (jsArrElems attributes).map (fun attrSpec => jsStr (jsGet attrSpec "name"))
    .ok
      { widgetParams := widgetParams
        attributeNames := attributeNames
        restrictedTo := if jsBool onlyListedAttributes then attributeNames else []
        attributesObj := (jsArrElems attributes).foldl
          (fun res attrSpec => jsObjSet res (jsStr (jsGet attrSpec "name")) attrSpec) []
        onlyListedAttributes := jsBool onlyListedAttributes }

/-- The claim's validity condition for one attribute spec: a plain record with
a string `name`; `label`, if present, a string; `template`, if present, a
string or a function; `transformData`, if present, a function. -/
def specValidAttribute (v : JSVal) : Bool :=
  isPlainObject v && isString (jsGet v "name") &&
    (isUndefined (jsGet v "label") || isString (jsGet v "label")) &&
    (isUndefined (jsGet v "template") || isString (jsGet v "template") ||
      isFunction (jsGet v "template")) &&
    (isUndefined (jsGet v "transformData") || isFunction (jsGet v "transformData"))

/-- The claim's validity condition for the whole configuration (after the
destructuring defaults): `attributes` an array of valid attribute specs and
`onlyListedAttributes` a boolean. -/
def specValidConfig (attributes onlyListedAttributes : JSVal) : Bool :=
  isArray attributes && (jsArrElems attributes).all specValidAttribute &&
    isBoolean onlyListedAttributes

theorem foldl_and_eq_all (l : List JSVal) (b : Bool) :
    l.foldl (fun res val => res && attributeCheck val) b = (b && l.all attributeCheck) := by
  induction l generalizing b with
  | nil => simp
  | cons v vs ih =>
    simp only [List.foldl_cons, List.all_cons, ih, Bool.and_assoc]

/-- C4: the factory throws the usage error if and only if the (defaulted)
configuration is invalid — `attributes` not an array, `onlyListedAttributes`
not a boolean, or some element of `attributes` not a plain record with a
string `name` (with `label`, if present, a string; `template`, if present, a
string or a function; `transformData`, if present, a function) — and on every
configuration passing all checks construction returns a widget without
throwing. -/
theorem connectCurrentRefinedValues_throws_iff (widgetParams : JSVal) :
    (connectCurrentRefinedValues widgetParams = .error usage ↔
      specValidConfig (jsGetD widgetParams "attributes" (.arr []))
        (jsGetD widgetParams "onlyListedAttributes" (.bool false)) = false) ∧
    (specValidConfig (jsGetD widgetParams "attributes" (.arr []))
        (jsGetD widgetParams "onlyListedAttributes" (.bool false)) = true →
      ∃ cfg, connectCurrentRefinedValues widgetParams = .ok cfg) := by
  have hspec : specValidAttribute = attributeCheck := rfl
  have hkey : (!isArray (jsGetD widgetParams "attributes" (.arr [])) ||
      !(isArray (jsGetD widgetParams "attributes" (.arr [])) &&
        (jsArrElems (jsGetD widgetParams "attributes" (.arr []))).foldl
          (fun res val => res && attributeCheck val) true) ||
      !isBoolean (jsGetD widgetParams "onlyListedAttributes" (.bool false))) =
      !specValidConfig (jsGetD widgetParams "attributes" (.arr []))
        (jsGetD widgetParams "onlyListedAttributes" (.bool false)) := by
    rw [foldl_and_eq_all]
    simp only [specValidConfig, hspec, Bool.true_and]
    cases isArray (jsGetD widgetParams "attributes" (.arr [])) <;>
      cases (jsArrElems (jsGetD widgetParams "attributes" (.arr []))).all attributeCheck <;>
      cases isBoolean (jsGetD widgetParams "onlyListedAttributes" (.bool false)) <;> rfl
  constructor
  · constructor
    · intro h
      by_contra hc
      have hv : specValidConfig (jsGetD widgetParams "attributes" (.arr []))
          (jsGetD widgetParams "onlyListedAttributes" (.bool false)) = true := by
        cases hvv : specValidConfig (jsGetD widgetParams "attributes" (.arr []))
            (jsGetD widgetParams "onlyListedAttributes" (.bool false))
        · exact absurd hvv hc
        · rfl
      simp only [connectCurrentRefinedValues, hkey, hv] at h
      simp at h
    · intro h
      simp only [connectCurrentRefinedValues, hkey, h]
      rfl
  · intro h
    simp only [connectCurrentRefinedValues, hkey, h]
    exact ⟨_, by rfl⟩

/-- Witness for C4 at concrete inputs: a valid configuration (one attribute
spec with a string name, boolean `onlyListedAttributes`) constructs without
throwing, and a configuration whose `attributes` is not an array throws the
usage error. -/
theorem connectCurrentRefinedValues_throws_iff_witness :
    (∃ cfg, connectCurrentRefinedValues
        (JSVal.obj [("attributes", JSVal.arr [JSVal.obj [("name", JSVal.str "color")]]),
          ("onlyListedAttributes", JSVal.bool true)]) = .ok cfg) ∧
    connectCurrentRefinedValues (JSVal.obj [("attributes", JSVal.num 3)]) = .error usage := by
  constructor
  · exact (connectCurrentRefinedValues_throws_iff
      (JSVal.obj [("attributes", JSVal.arr [JSVal.obj [("name", JSVal.str "color")]]),
        ("onlyListedAttributes", JSVal.bool true)])).2 (by rfl)
  · exact (connectCurrentRefinedValues_throws_iff
      (JSVal.obj [("attributes", JSVal.num 3)])).1.mpr (by rfl)

/-- The external helper handed to `init`/`render`: the connector reads its
`state` and captures the whole object inside the clearing closures. -/
structure Helper (σ : Type) where
  state : σ

/-- A zero-argument clearing closure built with `bind`: either
`clearRefinementsAndSearch.bind(null, helper, restrictedTo)` (the clear-all
trigger) or `clearRefinement.bind(null, helper, refinement)` (a
per-refinement trigger).  Each constructor records the captured arguments, so
two closures are the same trigger exactly when they capture the same data. -/
inductive Trigger (σ : Type) where
  | clearRefinementsAndSearch : Helper σ → List String → Trigger σ
  | clearRefinement : Helper σ → Refinement → Trigger σ

/-- The external collaborators.  Modelled from the spec: `getRefinements` and
`clearRefinementsFromState` live in `src/lib/utils.js`, which is not among
the sources — per §4.2/§4.3 the former fetches the raw active-refinement
list from `results`/`state` and the latter is the state's bulk-clear
restricted to an attribute-name allowlist; `applyOp` interprets one call of
the state's removal API (§6). -/
structure Externals (σ : Type) where
  getRefinements : JSVal → σ → List Refinement
  clearRefinementsFromState : σ → List String → σ
  applyOp : σ → StateOp → σ

/-- The widget instance's only own mutable field,
`this._clearRefinementsAndSearch` (written by `init`, read by `render`). -/
structure WidgetInst (σ : Type) where
  _clearRefinementsAndSearch : Option (Trigger σ)

/-- One field value of the object literal passed to the render callback. -/
inductive ParamVal (σ : Type) where
  | objV : List (String × JSVal) → ParamVal σ
  | triggerV : Option (Trigger σ) → ParamVal σ
  | urlV : String → ParamVal σ
  | triggersV : List (Trigger σ) → ParamVal σ
  | urlsV : List String → ParamVal σ
  | refinementsV : List Refinement → ParamVal σ
  | passthroughV : JSVal → ParamVal σ

/-- One invocation of the injected render callback: the object literal passed
as its first argument (fields in source order) and the `isFirstRendering`
boolean passed as its second. -/
structure RenderCall (σ : Type) where
  params : List (String × ParamVal σ)
  isFirstRender : Bool

/-- `Array.prototype.map` with a callback that can throw: the first exception
aborts the whole computation. -/
def mapExcept {α β : Type} (f : α → Except String β) : List α → Except String (List β)
  | [] => .ok []
  | a :: as =>
    match f a with
    | .error e => .error e
    | .ok b =>
      match mapExcept f as with
      | .error e => .error e
      | .ok bs => .ok (b :: bs)

/-- The widget's `init({helper, createURL, instantSearchInstance})`: caches
the bound clear-all closure on the instance, computes `clearAllURL` from the
bulk-cleared `helper.state`, collects the refinements from an empty results
object `{}` and `helper.state`, computes the per-refinement URLs and clearing
closures, and invokes the render callback with `isFirstRendering = true`
(returned as data together with the updated instance). -/
def widgetInit {σ : Type} (ext : Externals σ) (cfg : WidgetConfig)
    (helper : Helper σ) (createURL : σ → String) (instantSearchInstance : JSVal) :
    Except String (WidgetInst σ × RenderCall σ) :=
  let inst : WidgetInst σ :=
    { _clearRefinementsAndSearch :=
        some (.clearRefinementsAndSearch helper cfg.restrictedTo) }
  let clearAllURL := createURL (ext.clearRefinementsFromState helper.state cfg.restrictedTo)
  let refinements := getFilteredRefinements ext.getRefinements (.obj []) helper.state
    cfg.attributeNames cfg.onlyListedAttributes
  match mapExcept (fun refinement =>
      (clearRefinementFromState ext.applyOp helper.state refinement).map createURL)
      refinements with
  | .error e => .error e
  | .ok clearRefinementURLs =>
    let clearRefinementClicks := refinements.map (fun refinement =>
      Trigger.clearRefinement helper refinement)
    .ok (inst,
      { params :=
          [("attributes", .objV cfg.attributesObj),
            ("clearAllClick", .triggerV inst._clearRefinementsAndSearch),
            ("clearAllURL", .urlV clearAllURL),
            ("clearRefinementClicks", .triggersV clearRefinementClicks),
            ("clearRefinementURLs", .urlsV clearRefinementURLs),
            ("refinements", .refinementsV refinements),
            ("instantSearchInstance", .passthroughV instantSearchInstance),
            ("widgetParams", .passthroughV cfg.widgetParams)],
        isFirstRender := true })

/-- The widget's `render({results, helper, state, createURL,
instantSearchInstance})`: the same computation as `init` but over the
supplied `results` and `state`, reading the clear-all closure cached on the
instance, with `isFirstRendering = false`. -/
def widgetRender {σ : Type} (ext : Externals σ) (cfg : WidgetConfig)
    (inst : WidgetInst σ) (results : JSVal) (helper : Helper σ) (state : σ)
    (createURL : σ → String) (instantSearchInstance : JSVal) :
    Except String (RenderCall σ) :=
  let clearAllURL := createURL (ext.clearRefinementsFromState state cfg.restrictedTo)
  let refinements := getFilteredRefinements ext.getRefinements results state
    cfg.attributeNames cfg.onlyListedAttributes
  match mapExcept (fun refinement =>
      (clearRefinementFromState ext.applyOp state refinement).map createURL)
      refinements with
  | .error e => .error e
  | .ok clearRefinementURLs =>
    let clearRefinementClicks := refinements.map (fun refinement =>
      Trigger.clearRefinement helper refinement)
    .ok
      { params :=
          [("attributes", .objV cfg.attributesObj),
            ("clearAllClick", .triggerV inst._clearRefinementsAndSearch),
            ("clearAllURL", .urlV clearAllURL),
            ("clearRefinementClicks", .triggersV clearRefinementClicks),
            ("clearRefinementURLs", .urlsV clearRefinementURLs),
            ("refinements", .refinementsV refinements),
            ("instantSearchInstance", .passthroughV instantSearchInstance),
            ("widgetParams", .passthroughV cfg.widgetParams)],
        isFirstRender := false }

/-- Field lookup in the object literal passed to the render callback. -/
def lookupParam {σ : Type} : List (String × ParamVal σ) → String → Option (ParamVal σ)
  | [], _ => none
  | (k, v) :: rest, key => if k = key then some v else lookupParam rest key

/-- The `refinements` field of a render-callback invocation. -/
def callRefinements {σ : Type} (c : RenderCall σ) : List Refinement :=
  match lookupParam c.params "refinements" with
  | some (.refinementsV rs) => rs
  | _ => []

/-- The `clearRefinementURLs` field of a render-callback invocation. -/
def callClearRefinementURLs {σ : Type} (c : RenderCall σ) : List String :=
  match lookupParam c.params "clearRefinementURLs" with
  | some (.urlsV us) => us
  | _ => []

/-- The `clearRefinementClicks` field of a render-callback invocation. -/
def callClearRefinementClicks {σ : Type} (c : RenderCall σ) : List (Trigger σ) :=
  match lookupParam c.params "clearRefinementClicks" with
  | some (.triggersV ts) => ts
  | _ => []

theorem mapExcept_ok_get {α β : Type} {f : α → Except String β} {l : List α}
    {l2 : List β} (h : mapExcept f l = .ok l2) :
    l2.length = l.length ∧
      ∀ i, i < l.length →
        ∃ a b, l.get? i = some a ∧ l2.get? i = some b ∧ f a = .ok b := by
  induction l generalizing l2 with
  | nil =>
    simp only [mapExcept] at h
    cases h
    simp
  | cons a as ih =>
    simp only [mapExcept] at h
    cases hf : f a with
    | error e => rw [hf] at h; cases h
    | ok b =>
      rw [hf] at h
      cases hm : mapExcept f as with
      | error e => rw [hm] at h; cases h
      | ok bs =>
        rw [hm] at h
        cases h
        obtain ⟨hlen, hidx⟩ := ih hm
        refine ⟨by simp [hlen], ?_⟩
        intro i hi
        cases i with
        | zero => exact ⟨a, b, rfl, rfl, hf⟩
        | succ j =>
          simp only [List.length_cons] at hi
          obtain ⟨a2, b2, h1, h2, h3⟩ := hidx j (by omega)
          exact ⟨a2, b2, by simpa using h1, by simpa using h2, h3⟩

theorem lookup_params_fields {σ : Type} (a : List (String × JSVal))
    (t : Option (Trigger σ)) (u : String) (ts : List (Trigger σ)) (us : List String)
    (rs : List Refinement) (isi wp : JSVal) (b : Bool) :
    callRefinements (σ := σ)
        ⟨[("attributes", .objV a), ("clearAllClick", .triggerV t), ("clearAllURL", .urlV u),
          ("clearRefinementClicks", .triggersV ts), ("clearRefinementURLs", .urlsV us),
          ("refinements", .refinementsV rs), ("instantSearchInstance", .passthroughV isi),
          ("widgetParams", .passthroughV wp)], b⟩ = rs ∧
    callClearRefinementURLs (σ := σ)
        ⟨[("attributes", .objV a), ("clearAllClick", .triggerV t), ("clearAllURL", .urlV u),
          ("clearRefinementClicks", .triggersV ts), ("clearRefinementURLs", .urlsV us),
          ("refinements", .refinementsV rs), ("instantSearchInstance", .passthroughV isi),
          ("widgetParams", .passthroughV wp)], b⟩ = us ∧
    callClearRefinementClicks (σ := σ)
        ⟨[("attributes", .objV a), ("clearAllClick", .triggerV t), ("clearAllURL", .urlV u),
          ("clearRefinementClicks", .triggersV ts), ("clearRefinementURLs", .urlsV us),
          ("refinements", .refinementsV rs), ("instantSearchInstance", .passthroughV isi),
          ("widgetParams", .passthroughV wp)], b⟩ = ts ∧
    lookupParam (σ := σ)
        [("attributes", .objV a), ("clearAllClick", .triggerV t), ("clearAllURL", .urlV u),
          ("clearRefinementClicks", .triggersV ts), ("clearRefinementURLs", .urlsV us),
          ("refinements", .refinementsV rs), ("instantSearchInstance", .passthroughV isi),
          ("widgetParams", .passthroughV wp)] "clearAllClick" = some (.triggerV t) := by
  refine ⟨rfl, rfl, rfl, rfl⟩

theorem listMapGet {α β : Type} (g : α → β) (l : List α) (i : Nat) :
    (l.map g).get? i = (l.get? i).map g := by
  induction l generalizing i with
  | nil => cases i <;> rfl
  | cons x xs ih =>
    cases i with
    | zero => rfl
    | succ j => exact ih j

/-- C6: in both `init` and `render`, the `refinements`, `clearRefinementURLs`
and `clearRefinementClicks` arrays of the view model have equal length, and at
every valid index `i` the URL is `createURL` of the state with
`refinements[i]` cleared and the click is the closure that clears
`refinements[i]` — all three positions describe the same refinement. -/
theorem renderCall_aligned {σ : Type} (ext : Externals σ) (cfg : WidgetConfig)
    (helper : Helper σ) (createURL : σ → String) (instantSearchInstance : JSVal)
    (results : JSVal) (state : σ) (inst : WidgetInst σ) :
    (∀ inst2 call,
      widgetInit ext cfg helper createURL instantSearchInstance = .ok (inst2, call) →
      (callClearRefinementURLs call).length = (callRefinements call).length ∧
      (callClearRefinementClicks call).length = (callRefinements call).length ∧
      ∀ i, i < (callRefinements call).length →
        ∃ r u, (callRefinements call).get? i = some r ∧
          (callClearRefinementURLs call).get? i = some u ∧
          (clearRefinementFromState ext.applyOp helper.state r).map createURL = .ok u ∧
          (callClearRefinementClicks call).get? i =
            some (Trigger.clearRefinement helper r)) ∧
    (∀ call,
      widgetRender ext cfg inst results helper state createURL instantSearchInstance =
        .ok call →
      (callClearRefinementURLs call).length = (callRefinements call).length ∧
      (callClearRefinementClicks call).length = (callRefinements call).length ∧
      ∀ i, i < (callRefinements call).length →
        ∃ r u, (callRefinements call).get? i = some r ∧
          (callClearRefinementURLs call).get? i = some u ∧
          (clearRefinementFromState ext.applyOp state r).map createURL = .ok u ∧
          (callClearRefinementClicks call).get? i =
            some (Trigger.clearRefinement helper r)) := by
  constructor
  · intro inst2 call h
    simp only [widgetInit] at h
    cases hm : mapExcept (fun refinement =>
        (clearRefinementFromState ext.applyOp helper.state refinement).map createURL)
        (getFilteredRefinements ext.getRefinements (.obj []) helper.state
          cfg.attributeNames cfg.onlyListedAttributes) with
    | error e => rw [hm] at h; cases h
    | ok urls =>
      rw [hm] at h
      injection h with h2
      have hc : call = ⟨[("attributes", .objV cfg.attributesObj),
          ("clearAllClick", .triggerV (some (.clearRefinementsAndSearch helper cfg.restrictedTo))),
          ("clearAllURL", .urlV (createURL (ext.clearRefinementsFromState helper.state cfg.restrictedTo))),
          ("clearRefinementClicks", .triggersV ((getFilteredRefinements ext.getRefinements
              (.obj []) helper.state cfg.attributeNames cfg.onlyListedAttributes).map
            (fun refinement => Trigger.clearRefinement helper refinement))),
          ("clearRefinementURLs", .urlsV urls),
          ("refinements", .refinementsV (getFilteredRefinements ext.getRefinements
              (.obj []) helper.state cfg.attributeNames cfg.onlyListedAttributes)),
          ("instantSearchInstance", .passthroughV instantSearchInstance),
          ("widgetParams", .passthroughV cfg.widgetParams)], true⟩ :=
        (congrArg Prod.snd h2).symm
      subst hc
      obtain ⟨hrs, hus, hts, _⟩ := lookup_params_fields cfg.attributesObj
        (some (.clearRefinementsAndSearch helper cfg.restrictedTo))
        (createURL (ext.clearRefinementsFromState helper.state cfg.restrictedTo))
        ((getFilteredRefinements ext.getRefinements (.obj []) helper.state
            cfg.attributeNames cfg.onlyListedAttributes).map
          (fun refinement => Trigger.clearRefinement helper refinement))
        urls
        (getFilteredRefinements ext.getRefinements (.obj []) helper.state
          cfg.attributeNames cfg.onlyListedAttributes)
        instantSearchInstance cfg.widgetParams true
      rw [hrs, hus, hts]
      obtain ⟨hlen, hidx⟩ := mapExcept_ok_get hm
      refine ⟨hlen, List.length_map _ _, ?_⟩
      intro i hi
      obtain ⟨r, u, h1, h2, h3⟩ := hidx i hi
      refine ⟨r, u, h1, h2, h3, ?_⟩
      rw [listMapGet, h1]
      rfl
  · intro call h
    simp only [widgetRender] at h
    cases hm : mapExcept (fun refinement =>
        (clearRefinementFromState ext.applyOp state refinement).map createURL)
        (getFilteredRefinements ext.getRefinements results state
          cfg.attributeNames cfg.onlyListedAttributes) with
    | error e => rw [hm] at h; cases h
    | ok urls =>
      rw [hm] at h
      injection h with h2
      have hc : call = ⟨[("attributes", .objV cfg.attributesObj),
          ("clearAllClick", .triggerV inst._clearRefinementsAndSearch),
          ("clearAllURL", .urlV (createURL (ext.clearRefinementsFromState state cfg.restrictedTo))),
          ("clearRefinementClicks", .triggersV ((getFilteredRefinements ext.getRefinements
              results state cfg.attributeNames cfg.onlyListedAttributes).map
            (fun refinement => Trigger.clearRefinement helper refinement))),
          ("clearRefinementURLs", .urlsV urls),
          ("refinements", .refinementsV (getFilteredRefinements ext.getRefinements
              results state cfg.attributeNames cfg.onlyListedAttributes)),
          ("instantSearchInstance", .passthroughV instantSearchInstance),
          ("widgetParams", .passthroughV cfg.widgetParams)], false⟩ := h2.symm
      subst hc
      obtain ⟨hrs, hus, hts, _⟩ := lookup_params_fields cfg.attributesObj
        inst._clearRefinementsAndSearch
        (createURL (ext.clearRefinementsFromState state cfg.restrictedTo))
        ((getFilteredRefinements ext.getRefinements results state
            cfg.attributeNames cfg.onlyListedAttributes).map
          (fun refinement => Trigger.clearRefinement helper refinement))
        urls
        (getFilteredRefinements ext.getRefinements results state
          cfg.attributeNames cfg.onlyListedAttributes)
        instantSearchInstance cfg.widgetParams false
      rw [hrs, hus, hts]
      obtain ⟨hlen, hidx⟩ := mapExcept_ok_get hm
      refine ⟨hlen, List.length_map _ _, ?_⟩
      intro i hi
      obtain ⟨r, u, h1, h2, h3⟩ := hidx i hi
      refine ⟨r, u, h1, h2, h3, ?_⟩
      rw [listMapGet, h1]
      rfl

/-- Witness for C6 at concrete inputs: one active facet refinement; the URL
and click arrays of the resulting view model have the same length as the
refinement array. -/
theorem renderCall_aligned_witness :
    (callClearRefinementURLs (σ := Nat)
        ⟨[("attributes", .objV []),
          ("clearAllClick", .triggerV (some (.clearRefinementsAndSearch ⟨0⟩ []))),
          ("clearAllURL", .urlV "zero"),
          ("clearRefinementClicks",
            .triggersV [.clearRefinement ⟨0⟩ ⟨"facet", "a", "x", none, none⟩]),
          ("clearRefinementURLs", .urlsV ["one"]),
          ("refinements", .refinementsV [⟨"facet", "a", "x", none, none⟩]),
          ("instantSearchInstance", .passthroughV JSVal.undefined),
          ("widgetParams", .passthroughV (JSVal.obj []))], true⟩).length =
      (callRefinements (σ := Nat)
        ⟨[("attributes", .objV []),
          ("clearAllClick", .triggerV (some (.clearRefinementsAndSearch ⟨0⟩ []))),
          ("clearAllURL", .urlV "zero"),
          ("clearRefinementClicks",
            .triggersV [.clearRefinement ⟨0⟩ ⟨"facet", "a", "x", none, none⟩]),
          ("clearRefinementURLs", .urlsV ["one"]),
          ("refinements", .refinementsV [⟨"facet", "a", "x", none, none⟩]),
          ("instantSearchInstance", .passthroughV JSVal.undefined),
          ("widgetParams", .passthroughV (JSVal.obj []))], true⟩).length := by
  have h := (renderCall_aligned (σ := Nat)
    ⟨fun _ _ => [⟨"facet", "a", "x", none, none⟩], fun s _ => s, fun s _ => s + 1⟩
    ⟨JSVal.obj [], [], [], [], false⟩ ⟨0⟩ (fun n => if n = 0 then "zero" else "one")
    JSVal.undefined JSVal.undefined 0 ⟨none⟩).1
    ⟨some (.clearRefinementsAndSearch ⟨0⟩ [])⟩
    ⟨[("attributes", .objV []),
      ("clearAllClick", .triggerV (some (.clearRefinementsAndSearch ⟨0⟩ []))),
      ("clearAllURL", .urlV "zero"),
      ("clearRefinementClicks",
        .triggersV [.clearRefinement ⟨0⟩ ⟨"facet", "a", "x", none, none⟩]),
      ("clearRefinementURLs", .urlsV ["one"]),
      ("refinements", .refinementsV [⟨"facet", "a", "x", none, none⟩]),
      ("instantSearchInstance", .passthroughV JSVal.undefined),
      ("widgetParams", .passthroughV (JSVal.obj []))], true⟩ (by rfl)
  exact h.1

/-- C8: `init` collects the refinements from an empty results object and
`helper.state`, builds the clear-all closure once, caches it on the widget
instance and passes exactly that cached closure in the view model with
`isFirstRendering = true`; a subsequent `render` passes
`isFirstRendering = false` and the very closure cached on the instance at
`init` (same captured helper and allowlist). -/
theorem widgetInit_render_cachedClearAll {σ : Type} (ext : Externals σ)
    (cfg : WidgetConfig) (helper : Helper σ) (createURL : σ → String)
    (instantSearchInstance : JSVal) (results : JSVal) (helper2 : Helper σ)
    (state2 : σ) (createURL2 : σ → String) (instantSearchInstance2 : JSVal) :
    (∀ inst call,
      widgetInit ext cfg helper createURL instantSearchInstance = .ok (inst, call) →
      inst._clearRefinementsAndSearch =
        some (.clearRefinementsAndSearch helper cfg.restrictedTo) ∧
      lookupParam call.params "clearAllClick" =
        some (.triggerV (some (.clearRefinementsAndSearch helper cfg.restrictedTo))) ∧
      call.isFirstRender = true ∧
      callRefinements call =
        getFilteredRefinements ext.getRefinements (.obj []) helper.state
          cfg.attributeNames cfg.onlyListedAttributes) ∧
    (∀ inst call call2,
      widgetInit ext cfg helper createURL instantSearchInstance = .ok (inst, call) →
      widgetRender ext cfg inst results helper2 state2 createURL2
          instantSearchInstance2 = .ok call2 →
      call2.isFirstRender = false ∧
      lookupParam call2.params "clearAllClick" =
        some (.triggerV inst._clearRefinementsAndSearch) ∧
      inst._clearRefinementsAndSearch =
        some (.clearRefinementsAndSearch helper cfg.restrictedTo)) := by
  have hinit : ∀ inst call,
      widgetInit ext cfg helper createURL instantSearchInstance = .ok (inst, call) →
      inst = ⟨some (.clearRefinementsAndSearch helper cfg.restrictedTo)⟩ ∧
      lookupParam call.params "clearAllClick" =
        some (.triggerV (some (.clearRefinementsAndSearch helper cfg.restrictedTo))) ∧
      call.isFirstRender = true ∧
      callRefinements call =
        getFilteredRefinements ext.getRefinements (.obj []) helper.state
          cfg.attributeNames cfg.onlyListedAttributes := by
    intro inst call h
    simp only [widgetInit] at h
    cases hm : mapExcept (fun refinement =>
        (clearRefinementFromState ext.applyOp helper.state refinement).map createURL)
        (getFilteredRefinements ext.getRefinements (.obj []) helper.state
          cfg.attributeNames cfg.onlyListedAttributes) with
    | error e => rw [hm] at h; cases h
    | ok urls =>
      rw [hm] at h
      injection h with h2
      have hi : inst = ⟨some (.clearRefinementsAndSearch helper cfg.restrictedTo)⟩ :=
        (congrArg Prod.fst h2).symm
      have hc : call = ⟨[("attributes", .objV cfg.attributesObj),
          ("clearAllClick", .triggerV (some (.clearRefinementsAndSearch helper cfg.restrictedTo))),
          ("clearAllURL", .urlV (createURL (ext.clearRefinementsFromState helper.state cfg.restrictedTo))),
          ("clearRefinementClicks", .triggersV ((getFilteredRefinements ext.getRefinements
              (.obj []) helper.state cfg.attributeNames cfg.onlyListedAttributes).map
            (fun refinement => Trigger.clearRefinement helper refinement))),
          ("clearRefinementURLs", .urlsV urls),
          ("refinements", .refinementsV (getFilteredRefinements ext.getRefinements
              (.obj []) helper.state cfg.attributeNames cfg.onlyListedAttributes)),
          ("instantSearchInstance", .passthroughV instantSearchInstance),
          ("widgetParams", .passthroughV cfg.widgetParams)], true⟩ :=
        (congrArg Prod.snd h2).symm
      subst hi
      subst hc
      exact ⟨rfl, rfl, rfl, rfl⟩
  constructor
  · intro inst call h
    obtain ⟨hi, hrest⟩ := hinit inst call h
    exact ⟨by rw [hi], hrest⟩
  · intro inst call call2 h h2
    obtain ⟨hi, _⟩ := hinit inst call h
    simp only [widgetRender] at h2
    cases hm : mapExcept (fun refinement =>
        (clearRefinementFromState ext.applyOp state2 refinement).map createURL2)
        (getFilteredRefinements ext.getRefinements results state2
          cfg.attributeNames cfg.onlyListedAttributes) with
    | error e => rw [hm] at h2; cases h2
    | ok urls =>
      rw [hm] at h2
      have hc2 : call2 = ⟨[("attributes", .objV cfg.attributesObj),
          ("clearAllClick", .triggerV inst._clearRefinementsAndSearch),
          ("clearAllURL", .urlV (createURL2 (ext.clearRefinementsFromState state2 cfg.restrictedTo))),
          ("clearRefinementClicks", .triggersV ((getFilteredRefinements ext.getRefinements
              results state2 cfg.attributeNames cfg.onlyListedAttributes).map
            (fun refinement => Trigger.clearRefinement helper2 refinement))),
          ("clearRefinementURLs", .urlsV urls),
          ("refinements", .refinementsV (getFilteredRefinements ext.getRefinements
              results state2 cfg.attributeNames cfg.onlyListedAttributes)),
          ("instantSearchInstance", .passthroughV instantSearchInstance2),
          ("widgetParams", .passthroughV cfg.widgetParams)], false⟩ := by
        injection h2 with h3
        exact h3.symm
      subst hc2
      refine ⟨rfl, rfl, by rw [hi]⟩

/-- Witness for C8 at concrete inputs: no active refinements; `init` reports
`isFirstRendering = true` and a subsequent `render` reports
`isFirstRendering = false` with the clear-all closure cached at `init`. -/
theorem widgetInit_render_cachedClearAll_witness :
    WidgetInst._clearRefinementsAndSearch (σ := Nat)
        ⟨some (.clearRefinementsAndSearch ⟨0⟩ [])⟩ =
      some (.clearRefinementsAndSearch ⟨0⟩ []) ∧
    RenderCall.isFirstRender (σ := Nat)
        ⟨[("attributes", .objV []),
          ("clearAllClick", .triggerV (some (.clearRefinementsAndSearch ⟨0⟩ []))),
          ("clearAllURL", .urlV "u"),
          ("clearRefinementClicks", .triggersV []),
          ("clearRefinementURLs", .urlsV []),
          ("refinements", .refinementsV []),
          ("instantSearchInstance", .passthroughV JSVal.undefined),
          ("widgetParams", .passthroughV (JSVal.obj []))], true⟩ = true ∧
    RenderCall.isFirstRender (σ := Nat)
        ⟨[("attributes", .objV []),
          ("clearAllClick", .triggerV (some (.clearRefinementsAndSearch ⟨0⟩ []))),
          ("clearAllURL", .urlV "v"),
          ("clearRefinementClicks", .triggersV []),
          ("clearRefinementURLs", .urlsV []),
          ("refinements", .refinementsV []),
          ("instantSearchInstance", .passthroughV JSVal.undefined),
          ("widgetParams", .passthroughV (JSVal.obj []))], false⟩ = false ∧
    lookupParam (σ := Nat)
        [("attributes", .objV []),
          ("clearAllClick", .triggerV (some (.clearRefinementsAndSearch ⟨0⟩ []))),
          ("clearAllURL", .urlV "v"),
          ("clearRefinementClicks", .triggersV []),
          ("clearRefinementURLs", .urlsV []),
          ("refinements", .refinementsV []),
          ("instantSearchInstance", .passthroughV JSVal.undefined),
          ("widgetParams", .passthroughV (JSVal.obj []))] "clearAllClick" =
      some (.triggerV (some (.clearRefinementsAndSearch ⟨0⟩ []))) := by
  have h := widgetInit_render_cachedClearAll (σ := Nat)
    ⟨fun _ _ => [], fun s _ => s, fun s _ => s⟩
    ⟨JSVal.obj [], [], [], [], false⟩ ⟨0⟩ (fun _ => "u") JSVal.undefined
    JSVal.undefined ⟨1⟩ 2 (fun _ => "v") JSVal.undefined
  have h1 := h.1 ⟨some (.clearRefinementsAndSearch ⟨0⟩ [])⟩
    ⟨[("attributes", .objV []),
      ("clearAllClick", .triggerV (some (.clearRefinementsAndSearch ⟨0⟩ []))),
      ("clearAllURL", .urlV "u"),
      ("clearRefinementClicks", .triggersV []),
      ("clearRefinementURLs", .urlsV []),
      ("refinements", .refinementsV []),
      ("instantSearchInstance", .passthroughV JSVal.undefined),
      ("widgetParams", .passthroughV (JSVal.obj []))], true⟩ (by rfl)
  have h2 := h.2 ⟨some (.clearRefinementsAndSearch ⟨0⟩ [])⟩
    ⟨[("attributes", .objV []),
      ("clearAllClick", .triggerV (some (.clearRefinementsAndSearch ⟨0⟩ []))),
      ("clearAllURL", .urlV "u"),
      ("clearRefinementClicks", .triggersV []),
      ("clearRefinementURLs", .urlsV []),
      ("refinements", .refinementsV []),
      ("instantSearchInstance", .passthroughV JSVal.undefined),
      ("widgetParams", .passthroughV (JSVal.obj []))], true⟩
    ⟨[("attributes", .objV []),
      ("clearAllClick", .triggerV (some (.clearRefinementsAndSearch ⟨0⟩ []))),
      ("clearAllURL", .urlV "v"),
      ("clearRefinementClicks", .triggersV []),
      ("clearRefinementURLs", .urlsV []),
      ("refinements", .refinementsV []),
      ("instantSearchInstance", .passthroughV JSVal.undefined),
      ("widgetParams", .passthroughV (JSVal.obj []))], false⟩ (by rfl) (by rfl)
  exact ⟨h1.1, h1.2.2.1, h2.1, h2.2.1⟩

/-- C7 (counter-evaluation): the object passed to the render callback carries
exactly the eight fields `attributes`, `clearAllClick`, `clearAllURL`,
`clearRefinementClicks`, `clearRefinementURLs`, `refinements`,
`instantSearchInstance`, `widgetParams` — and `clearAllPosition`, although
listed in the connector's own usage text and typedef, is not among them.
Evaluated on the widget built by the factory from empty options, at `init`
with no active refinements. -/
theorem initParams_lack_clearAllPosition :
    connectCurrentRefinedValues (JSVal.obj []) =
      .ok ⟨JSVal.obj [], [], [], [], false⟩ ∧
    (match widgetInit (σ := Nat)
        ⟨fun _ _ => [], fun s _ => s, fun s _ => s⟩
        ⟨JSVal.obj [], [], [], [], false⟩ ⟨0⟩ (fun _ => "u") JSVal.undefined with
      | .ok (_, call) => call.params.map Prod.fst
      | .error _ => []) =
      ["attributes", "clearAllClick", "clearAllURL", "clearRefinementClicks",
        "clearRefinementURLs", "refinements", "instantSearchInstance", "widgetParams"] ∧
    "clearAllPosition" ∉
      ["attributes", "clearAllClick", "clearAllURL", "clearRefinementClicks",
        "clearRefinementURLs", "refinements", "instantSearchInstance", "widgetParams"] := by
  refine ⟨rfl, rfl, by decide⟩
